import Mathlib

/-!
Verification of the trip-planner recommendation and budget-prediction core.

The Python source is shallowly embedded in Lean:
* floats become exact rationals (`ℚ`);
* `numpy.log1p`, a transcendental function, is abstracted as a parameter
  `log1p : ℕ → ℚ` of the functions that use it (review counts are naturals);
* Python `round(x, n)` (round half to even) becomes `round4` / `round2`
  built on the half-even integer rounding `rhe`;
* `dict` / `defaultdict` state becomes association lists or `String → ℕ`
  functions; pandas DataFrames become explicit column structures;
* code that can raise becomes `Except String`.

Because the library marks `Rat.add`, `Rat.sub`, `Rat.mul` and `Rat.inv`
irreducible, the embedding computes with reducible clones `qadd`, `qsub`,
`qmul`, `qinv`, `qdiv`, `qabs` (each proved equal to the standard
operation), so that concrete runs of the model reduce under `decide`.
-/

/-- Reducible rational addition, equal to `a + b` (`qadd_eq`). -/
def qadd (a b : ℚ) : ℚ :=
  Rat.normalize (a.num * b.den + b.num * a.den) (a.den * b.den)
    (Nat.mul_ne_zero a.den_nz b.den_nz)

/-- Reducible rational subtraction, equal to `a - b` (`qsub_eq`). -/
def qsub (a b : ℚ) : ℚ :=
  Rat.normalize (a.num * b.den - b.num * a.den) (a.den * b.den)
    (Nat.mul_ne_zero a.den_nz b.den_nz)

/-- Reducible rational multiplication, equal to `a * b` (`qmul_eq`). -/
def qmul (a b : ℚ) : ℚ :=
  Rat.normalize (a.num * b.num) (a.den * b.den)
    (Nat.mul_ne_zero a.den_nz b.den_nz)

/-- Reducible rational inverse, equal to `a⁻¹` (`qinv_eq`); `qinv 0 = 0`. -/
def qinv (a : ℚ) : ℚ := Rat.divInt a.den a.num

/-- Reducible rational division, equal to `a / b` (`qdiv_eq`). -/
def qdiv (a b : ℚ) : ℚ := qmul a (qinv b)

/-- Reducible negation, equal to `-a` (`qneg_eq`). -/
def qneg (a : ℚ) : ℚ :=
  ⟨-a.num, a.den, a.den_nz, by simpa only [Int.natAbs_neg] using a.reduced⟩

/-- Reducible absolute value, equal to `|a|` (`qabs_eq`). -/
def qabs (a : ℚ) : ℚ := if a < 0 then qneg a else a

theorem qadd_eq (a b : ℚ) : qadd a b = a + b := (Rat.add_def a b).symm

theorem qsub_eq (a b : ℚ) : qsub a b = a - b := (Rat.sub_def a b).symm

theorem qmul_eq (a b : ℚ) : qmul a b = a * b := (Rat.mul_def a b).symm

theorem qinv_eq (a : ℚ) : qinv a = a⁻¹ := (Rat.inv_def a).symm

theorem qdiv_eq (a b : ℚ) : qdiv a b = a / b := by
  rw [qdiv, qmul_eq, qinv_eq, div_eq_mul_inv]

theorem qneg_eq (a : ℚ) : qneg a = -a := by
  rw [qneg, Rat.mk_eq_divInt, ← Rat.neg_def]

theorem qabs_eq (a : ℚ) : qabs a = |a| := by
  rw [qabs]
  by_cases h : a < 0
  · rw [if_pos h, qneg_eq, abs_of_neg h]
  · rw [if_neg h, abs_of_nonneg (not_lt.mp h)]

/-- Round half to even to the nearest integer, as Python's builtin `round`
does on exactly representable values. -/
def rhe (q : ℚ) : ℤ :=
  let f : ℤ := Rat.floor q
  let r : ℚ := qsub q (Rat.ofInt f)
  if r < mkRat 1 2 then f
  else if mkRat 1 2 < r then f + 1
  else if f % 2 = 0 then f else f + 1

/-- Model of Python `round(x, 4)`. -/
def round4 (q : ℚ) : ℚ := mkRat (rhe (qmul q 10000)) 10000

/-- Model of Python `round(x, 2)`. -/
def round2 (q : ℚ) : ℚ := mkRat (rhe (qmul q 100)) 100

/-- Lower-case a string character by character, the model of Python
`str.lower` over the ASCII categories used by the repository. -/
def lowerStr (s : String) : String := String.mk (s.data.map Char.toLower)

/-- Boolean prefix test on character lists. -/
def isPre : List Char → List Char → Bool
  | [], _ => true
  | _ :: _, [] => false
  | a :: as, b :: bs => a == b && isPre as bs

/-- Boolean infix (contiguous substring) test on character lists. -/
def isInf (n : List Char) : List Char → Bool
  | [] => n.isEmpty
  | c :: t => isPre n (c :: t) || isInf n t

/-- Model of Python's `needle in hay` on strings. -/
def substr (needle hay : String) : Bool := isInf needle.data hay.data

/-- Model of Python `s.replace(pat, rep)` (all occurrences, left to right);
the fuel argument is the length of the remaining text, which bounds the
recursion because every step either consumes a character or a non-empty
pattern occurrence. An empty pattern is treated as a no-op (the repository
never calls `replace` with an empty pattern). -/
def replList (pat rep : List Char) : ℕ → List Char → List Char
  | _, [] => []
  | 0, l => l
  | fuel + 1, c :: rest =>
    if pat ≠ [] && isPre pat (c :: rest) then
      rep ++ replList pat rep fuel ((c :: rest).drop pat.length)
    else c :: replList pat rep fuel rest

/-- String version of `replList`. -/
def strReplace (s pat rep : String) : String :=
  String.mk (replList pat.data rep.data s.data.length s.data)

/-- Insert into an association list, replacing the first binding of the key
if present and appending otherwise — the effect of `df[key] = value` and of
`dict[key] = value`. -/
def upsert {α : Type} : List (String × α) → String → α → List (String × α)
  | [], k, v => [(k, v)]
  | (k', v') :: rest, k, v =>
    if k' = k then (k, v) :: rest else (k', v') :: upsert rest k v


/-- Decidable equality for `Except`, so that concrete runs of the fallible
embedded operations can be checked by `decide`. -/
instance exceptDecEq {ε α : Type} [DecidableEq ε] [DecidableEq α] :
    DecidableEq (Except ε α) := fun a b =>
  match a, b with
  | .error x, .error y =>
    if h : x = y then isTrue (by rw [h])
    else isFalse (fun hc => h (Except.error.inj hc))
  | .ok x, .ok y =>
    if h : x = y then isTrue (by rw [h])
    else isFalse (fun hc => h (Except.ok.inj hc))
  | .error _, .ok _ => isFalse (fun hc => Except.noConfusion hc)
  | .ok _, .error _ => isFalse (fun hc => Except.noConfusion hc)

/-- Lift a natural number to a rational, reducibly. -/
def natQ (n : ℕ) : ℚ := Rat.ofInt (Int.ofNat n)

theorem natQ_eq (n : ℕ) : natQ n = (n : ℚ) := rfl

namespace OSMRecommender

/-- The `tags` sub-dictionary attached to each place by
`OverpassService._parse_element`; every value is optional because the
source uses `tags.get(...)`, which yields `None` for absent keys. -/
structure Tags where
  tourism : Option String
  natural : Option String
  historic : Option String
  leisure : Option String
  amenity : Option String
  religion : Option String
  wikipedia : Option String
  website : Option String
  descriptionTag : Option String
deriving DecidableEq

/-- Python truthiness of `tags.get(key)`: `None` and the empty string are
falsy, any other string is truthy. -/
def truthy : Option String → Bool
  | none => false
  | some s => !s.isEmpty

/-- A candidate place as consumed by `OSMRecommender._rank_places`:
the dictionary keys the ranking code reads. -/
structure Place where
  name : String
  category : String
  lat : ℚ
  lon : ℚ
  tags : Tags
deriving DecidableEq

/-- The class constant `CATEGORY_KEYWORDS`. -/
def CATEGORY_KEYWORDS : List (String × List String) :=
  [("nature", ["beach", "mountain", "park", "waterfall", "viewpoint"]),
   ("religious", ["temple", "monument"]),
   ("culture", ["museum", "monument", "tourist_attraction"]),
   ("adventure", ["mountain", "viewpoint", "beach"]),
   ("history", ["monument", "museum", "tourist_attraction"]),
   ("relaxation", ["beach", "park"]),
   ("heritage", ["monument", "tourist_attraction"])]

/-- Embedding of `OSMRecommender._calculate_popularity`. -/
def calculate_popularity (p : Place) : ℚ :=
  let score := qadd (qadd (qadd (qadd (mkRat 1 2)
    (if truthy p.tags.wikipedia then mkRat 1 5 else 0))
    (if truthy p.tags.website then mkRat 1 10 else 0))
    (if truthy p.tags.descriptionTag then mkRat 1 10 else 0))
    (if p.tags.tourism = some "attraction" then mkRat 1 10 else 0)
  if score ≤ 1 then score else 1

/-- Embedding of `OSMRecommender._calculate_interest_match`. The source
guards with `if not interests`, which is taken for both `None` and the
empty list. -/
def calculate_interest_match (p : Place) (interests : Option (List String)) : ℚ :=
  match interests with
  | none => mkRat 1 2
  | some [] => mkRat 1 2
  | some is =>
    let place_category := lowerStr p.category
    let n : ℚ := natQ is.length
    let score := is.foldl (fun acc interest0 =>
      let interest := lowerStr interest0
      let acc1 :=
        match List.lookup interest CATEGORY_KEYWORDS with
        | some relevant_categories =>
          if relevant_categories.any (fun cat => substr cat place_category) then
            qadd acc (qdiv 1 n)
          else acc
        | none => acc
      if substr interest place_category || substr place_category interest then
        qadd acc1 (qdiv (mkRat 1 2) n)
      else acc1) 0
    if score ≤ 1 then score else 1

/-- Embedding of `OSMRecommender._calculate_season_fit`. The source reads
the wall clock (`datetime.datetime.now().month`); the embedding takes the
month as an explicit argument. -/
def calculate_season_fit (month : ℕ) (p : Place) : ℚ :=
  let category := lowerStr p.category
  if substr "beach" category then
    if 6 ≤ month ∧ month ≤ 8 then 1
    else if (3 ≤ month ∧ month ≤ 5) ∨ (9 ≤ month ∧ month ≤ 11) then mkRat 7 10
    else mkRat 2 5
  else if substr "mountain" category || substr "hill" category then
    if (3 ≤ month ∧ month ≤ 5) ∨ (9 ≤ month ∧ month ≤ 11) then 1
    else mkRat 7 10
  else mkRat 4 5

/-- Embedding of `OSMRecommender._calculate_distance_score`. The Python
code buckets `sqrt(lat_diff² + lon_diff²)` against 0.1 / 0.3 / 0.5; since
both sides are non-negative this is the same as bucketing the squared
distance against the squared thresholds, which stays inside ℚ. -/
def calculate_distance_score (place_lat place_lon center_lat center_lon : ℚ) : ℚ :=
  let lat_diff := qabs (qsub place_lat center_lat)
  let lon_diff := qabs (qsub place_lon center_lon)
  let distance_sq := qadd (qmul lat_diff lat_diff) (qmul lon_diff lon_diff)
  if distance_sq < mkRat 1 100 then 1
  else if distance_sq < mkRat 9 100 then mkRat 4 5
  else if distance_sq < mkRat 1 4 then mkRat 3 5
  else mkRat 2 5

/-- The per-place `score_breakdown` dictionary (each entry rounded to two
decimal places by the source). -/
structure Breakdown where
  popularity : ℚ
  interest_match : ℚ
  season_fit : ℚ
  distance : ℚ
  diversity : ℚ
deriving DecidableEq

/-- A place augmented with the keys `_rank_places` writes into its dict:
`rank_score`, `score_breakdown` and (after sorting) `rank`. -/
structure ScoredPlace where
  place : Place
  rank_score : ℚ
  score_breakdown : Breakdown
  rank : ℕ
deriving DecidableEq

/-- One iteration of the scoring loop in `_rank_places`: computes the five
sub-scores of `place` given the running per-category counter state. -/
def scoreOne (interests : Option (List String)) (clat clon : ℚ) (month : ℕ)
    (counts : String → ℕ) (p : Place) : ScoredPlace :=
  let popularity_score := calculate_popularity p
  let interest_score := calculate_interest_match p interests
  let season_score := calculate_season_fit month p
  let distance_score := calculate_distance_score p.lat p.lon clat clon
  let diversity_score := qdiv 1 (qadd 1 (qmul (natQ (counts p.category)) (mkRat 1 10)))
  let final_score :=
    qadd (qadd (qadd (qadd
      (qmul (mkRat 35 100) popularity_score)
      (qmul (mkRat 25 100) interest_score))
      (qmul (mkRat 20 100) season_score))
      (qmul (mkRat 10 100) distance_score))
      (qmul (mkRat 10 100) diversity_score)
  { place := p
    rank_score := round4 final_score
    score_breakdown :=
      { popularity := round2 popularity_score
        interest_match := round2 interest_score
        season_fit := round2 season_score
        distance := round2 distance_score
        diversity := round2 diversity_score }
    rank := 0 }

/-- Increment of the `defaultdict(int)` per-category counter. -/
def bump (c : String) (counts : String → ℕ) : String → ℕ :=
  fun x => if x = c then counts x + 1 else counts x

/-- The scoring loop of `_rank_places`: score each place in input order,
incrementing the category counter after each place (`category_counts[category] += 1`
runs after the diversity score is read). -/
def scoreLoop (interests : Option (List String)) (clat clon : ℚ) (month : ℕ)
    (counts : String → ℕ) : List Place → List ScoredPlace
  | [] => []
  | p :: ps =>
    scoreOne interests clat clon month counts p ::
      scoreLoop interests clat clon month (bump p.category counts) ps

/-- Insertion step of the stable descending sort: a new element coming
EARLIER in the input goes before every element whose score does not exceed
it, which is exactly the order `sorted(..., reverse=True)` (a stable sort)
produces. -/
def insertDesc (x : ScoredPlace) : List ScoredPlace → List ScoredPlace
  | [] => [x]
  | y :: ys =>
    if y.rank_score ≤ x.rank_score then x :: y :: ys else y :: insertDesc x ys

/-- Stable sort by `rank_score`, descending; the model of
`sorted(scored_places, key=lambda x: x['rank_score'], reverse=True)`. -/
def sortDesc : List ScoredPlace → List ScoredPlace
  | [] => []
  | x :: xs => insertDesc x (sortDesc xs)

/-- The rank-assignment loop `for i, place in enumerate(ranked, 1)`. -/
def addRanks (k : ℕ) : List ScoredPlace → List ScoredPlace
  | [] => []
  | x :: xs => { x with rank := k } :: addRanks (k + 1) xs

/-- Embedding of `OSMRecommender._rank_places`. -/
def rank_places (places : List Place) (interests : Option (List String))
    (center_lat center_lon : ℚ) (month : ℕ) : List ScoredPlace :=
  addRanks 1 (sortDesc (scoreLoop interests center_lat center_lon month (fun _ => 0) places))

end OSMRecommender

namespace OSMRecommender

/-- Number of places of a given category in a list (category compared
verbatim, as `category_counts[place['category']]` does). -/
def countCat (l : List Place) (c : String) : ℕ :=
  (l.filter (fun p => p.category = c)).length

theorem countCat_nil (c : String) : countCat [] c = 0 := rfl

theorem countCat_cons (p : Place) (l : List Place) (c : String) :
    countCat (p :: l) c = (if p.category = c then 1 else 0) + countCat l c := by
  by_cases h : p.category = c
  · simp [countCat, h, Nat.add_comm]
  · simp [countCat, h]

theorem scoreLoop_length (interests : Option (List String)) (clat clon : ℚ)
    (month : ℕ) (counts : String → ℕ) (places : List Place) :
    (scoreLoop interests clat clon month counts places).length = places.length := by
  induction places generalizing counts with
  | nil => rfl
  | cons p ps ih => simp [scoreLoop, ih]

/-- The running `category_counts` state at step `i` of the scoring loop is
the base state plus the per-category count over the first `i` places. -/
theorem scoreLoop_getElem (interests : Option (List String)) (clat clon : ℚ)
    (month : ℕ) (counts : String → ℕ) (places : List Place) (i : ℕ)
    (h : i < places.length)
    (h' : i < (scoreLoop interests clat clon month counts places).length) :
    (scoreLoop interests clat clon month counts places)[i] =
      scoreOne interests clat clon month
        (fun c => counts c + countCat (places.take i) c) places[i] := by
  induction places generalizing counts i with
  | nil => exact absurd h (by simp)
  | cons p ps ih =>
    cases i with
    | zero =>
      simp only [scoreLoop, List.getElem_cons_zero, List.take_zero, countCat_nil]
      rfl
    | succ j =>
      have hj : j < ps.length := Nat.lt_of_succ_lt_succ h
      have hj' : j < (scoreLoop interests clat clon month (bump p.category counts) ps).length := by
        rw [scoreLoop_length]; exact hj
      simp only [scoreLoop, List.getElem_cons_succ]
      rw [ih (bump p.category counts) j hj hj']
      congr 1
      funext c
      rw [List.take_succ_cons, countCat_cons, bump]
      by_cases hc : c = p.category
      · subst hc; simp [Nat.add_comm, Nat.add_assoc, Nat.add_left_comm]
      · have : ¬ p.category = c := fun hcc => hc hcc.symm
        simp [hc, this]

theorem scoreLoop_map_place (interests : Option (List String)) (clat clon : ℚ)
    (month : ℕ) (counts : String → ℕ) (places : List Place) :
    (scoreLoop interests clat clon month counts places).map ScoredPlace.place = places := by
  induction places generalizing counts with
  | nil => rfl
  | cons p ps ih => simp [scoreLoop, scoreOne, ih]

theorem scoreLoop_rank_zero (interests : Option (List String)) (clat clon : ℚ)
    (month : ℕ) (counts : String → ℕ) (places : List Place) :
    ∀ sp ∈ scoreLoop interests clat clon month counts places, sp.rank = 0 := by
  induction places generalizing counts with
  | nil => intro sp hsp; simp [scoreLoop] at hsp
  | cons p ps ih =>
    intro sp hsp
    simp only [scoreLoop, List.mem_cons] at hsp
    cases hsp with
    | inl h => subst h; rfl
    | inr h => exact ih _ sp h

end OSMRecommender

namespace OSMRecommender

theorem insertDesc_perm (x : ScoredPlace) (l : List ScoredPlace) :
    List.Perm (insertDesc x l) (x :: l) := by
  induction l with
  | nil => exact List.Perm.refl _
  | cons y ys ih =>
    rw [insertDesc]
    by_cases h : y.rank_score ≤ x.rank_score
    · rw [if_pos h]
    · rw [if_neg h]
      exact List.Perm.trans (List.Perm.cons y ih) (List.Perm.swap x y ys)

theorem sortDesc_perm (l : List ScoredPlace) : List.Perm (sortDesc l) l := by
  induction l with
  | nil => exact List.Perm.refl _
  | cons x xs ih =>
    exact List.Perm.trans (insertDesc_perm x (sortDesc xs)) (List.Perm.cons x ih)

theorem mem_insertDesc {z x : ScoredPlace} {l : List ScoredPlace} :
    z ∈ insertDesc x l ↔ z = x ∨ z ∈ l := by
  rw [(insertDesc_perm x l).mem_iff, List.mem_cons]

/-- Sortedness invariant of the insertion step: descending `rank_score`. -/
theorem insertDesc_pairwise {x : ScoredPlace} {l : List ScoredPlace}
    (hl : l.Pairwise (fun a b => b.rank_score ≤ a.rank_score)) :
    (insertDesc x l).Pairwise (fun a b => b.rank_score ≤ a.rank_score) := by
  induction l with
  | nil => simp [insertDesc]
  | cons y ys ih =>
    rw [insertDesc]
    rw [List.pairwise_cons] at hl
    by_cases h : y.rank_score ≤ x.rank_score
    · rw [if_pos h, List.pairwise_cons]
      constructor
      · intro z hz
        rcases List.mem_cons.mp hz with hzy | hzys
        · subst hzy; exact h
        · exact le_trans (hl.1 z hzys) h
      · exact List.pairwise_cons.mpr hl
    · rw [if_neg h, List.pairwise_cons]
      constructor
      · intro z hz
        rcases mem_insertDesc.mp hz with hzx | hzys
        · subst hzx; exact le_of_lt (lt_of_not_le h)
        · exact hl.1 z hzys
      · exact ih hl.2

theorem sortDesc_pairwise (l : List ScoredPlace) :
    (sortDesc l).Pairwise (fun a b => b.rank_score ≤ a.rank_score) := by
  induction l with
  | nil => simp [sortDesc]
  | cons x xs ih => exact insertDesc_pairwise ih

/-- Restriction of a scored list to one exact score value; used to state
stability of the sort (Python's `sorted` is stable, so the places tied at
any given score keep their input order). -/
def scoreFilter (s : ℚ) (l : List ScoredPlace) : List ScoredPlace :=
  l.filter (fun sp => sp.rank_score = s)

theorem scoreFilter_insertDesc (s : ℚ) (x : ScoredPlace) (l : List ScoredPlace) :
    scoreFilter s (insertDesc x l) =
      if x.rank_score = s then x :: scoreFilter s l else scoreFilter s l := by
  induction l with
  | nil =>
    by_cases hx : x.rank_score = s
    · simp [insertDesc, scoreFilter, hx]
    · simp [insertDesc, scoreFilter, hx]
  | cons y ys ih =>
    rw [insertDesc]
    by_cases h : y.rank_score ≤ x.rank_score
    · rw [if_pos h]
      by_cases hx : x.rank_score = s
      · simp [scoreFilter, hx]
      · simp [scoreFilter, hx]
    · rw [if_neg h]
      by_cases hx : x.rank_score = s
      · have hy : ¬ y.rank_score = s := fun hys =>
          h (le_of_eq (hys.trans hx.symm))
        rw [if_pos hx]
        rw [if_pos hx] at ih
        simp only [scoreFilter, List.filter_cons, decide_eq_true_eq, if_neg hy]
        simpa [scoreFilter] using ih
      · rw [if_neg hx]
        rw [if_neg hx] at ih
        by_cases hy : y.rank_score = s
        · simp only [scoreFilter, List.filter_cons, decide_eq_true_eq, if_pos hy]
          simpa [scoreFilter] using ih
        · simp only [scoreFilter, List.filter_cons, decide_eq_true_eq, if_neg hy]
          simpa [scoreFilter] using ih

theorem scoreFilter_sortDesc (s : ℚ) (l : List ScoredPlace) :
    scoreFilter s (sortDesc l) = scoreFilter s l := by
  induction l with
  | nil => rfl
  | cons x xs ih =>
    rw [sortDesc, scoreFilter_insertDesc]
    by_cases hx : x.rank_score = s
    · rw [if_pos hx, ih]
      simp [scoreFilter, List.filter_cons, hx]
    · rw [if_neg hx, ih]
      simp [scoreFilter, List.filter_cons, hx]

end OSMRecommender

namespace OSMRecommender

/-- Forget the rank assignment (identity on entries that have not been
ranked yet, whose rank field is 0). -/
def stripRank (sp : ScoredPlace) : ScoredPlace := { sp with rank := 0 }

theorem addRanks_length (k : ℕ) (l : List ScoredPlace) :
    (addRanks k l).length = l.length := by
  induction l generalizing k with
  | nil => rfl
  | cons x xs ih => simp [addRanks, ih]

theorem addRanks_map_rank (k : ℕ) (l : List ScoredPlace) :
    (addRanks k l).map ScoredPlace.rank = List.range' k l.length := by
  induction l generalizing k with
  | nil => rfl
  | cons x xs ih => simp [addRanks, List.range'_succ, ih]

theorem addRanks_map_strip (k : ℕ) (l : List ScoredPlace) :
    (addRanks k l).map stripRank = l.map stripRank := by
  induction l generalizing k with
  | nil => rfl
  | cons x xs ih => simp [addRanks, stripRank, ih]

theorem addRanks_map_score (k : ℕ) (l : List ScoredPlace) :
    (addRanks k l).map ScoredPlace.rank_score = l.map ScoredPlace.rank_score := by
  induction l generalizing k with
  | nil => rfl
  | cons x xs ih => simp [addRanks, ih]

theorem scoreFilter_addRanks_strip (s : ℚ) (k : ℕ) (l : List ScoredPlace) :
    (scoreFilter s (addRanks k l)).map stripRank =
      (scoreFilter s l).map stripRank := by
  induction l generalizing k with
  | nil => rfl
  | cons x xs ih =>
    by_cases hx : x.rank_score = s
    · simp only [addRanks, scoreFilter, List.filter_cons, decide_eq_true_eq]
      rw [if_pos hx, if_pos hx]
      simp only [List.map_cons]
      rw [show stripRank { x with rank := k } = stripRank x from rfl]
      exact congrArg (stripRank x :: ·) (ih (k + 1))
    · simp only [addRanks, scoreFilter, List.filter_cons, decide_eq_true_eq]
      rw [if_neg hx, if_neg hx]
      exact ih (k + 1)

theorem map_stripRank_of_rank_zero {l : List ScoredPlace}
    (h : ∀ sp ∈ l, sp.rank = 0) : l.map stripRank = l := by
  induction l with
  | nil => rfl
  | cons x xs ih =>
    have hx : x.rank = 0 := h x (List.mem_cons_self x xs)
    have hxs : ∀ sp ∈ xs, sp.rank = 0 := fun sp hsp => h sp (List.mem_cons_of_mem x hsp)
    simp only [List.map_cons, ih hxs]
    congr 1
    cases x with
    | mk place rank_score breakdown rank =>
      simp only [stripRank]
      simp_all

end OSMRecommender

namespace OSMRecommender

theorem scoreOne_place (interests : Option (List String)) (clat clon : ℚ)
    (month : ℕ) (counts : String → ℕ) (p : Place) :
    (scoreOne interests clat clon month counts p).place = p := rfl

/-- The composite score of one loop iteration, restated with the standard
rational operations. -/
theorem scoreOne_rank_score (interests : Option (List String)) (clat clon : ℚ)
    (month : ℕ) (counts : String → ℕ) (p : Place) :
    (scoreOne interests clat clon month counts p).rank_score =
      round4 (35/100 * calculate_popularity p
        + 25/100 * calculate_interest_match p interests
        + 20/100 * calculate_season_fit month p
        + 10/100 * calculate_distance_score p.lat p.lon clat clon
        + 10/100 * (1 / (1 + (counts p.category : ℚ) * (1/10)))) := by
  simp only [scoreOne, qadd_eq, qmul_eq, qdiv_eq, natQ_eq,
    Rat.mkRat_eq_divInt, Rat.divInt_eq_div]
  norm_num

/-- The recorded score breakdown of one loop iteration, restated with the
standard rational operations. -/
theorem scoreOne_breakdown (interests : Option (List String)) (clat clon : ℚ)
    (month : ℕ) (counts : String → ℕ) (p : Place) :
    (scoreOne interests clat clon month counts p).score_breakdown =
      { popularity := round2 (calculate_popularity p)
        interest_match := round2 (calculate_interest_match p interests)
        season_fit := round2 (calculate_season_fit month p)
        distance := round2 (calculate_distance_score p.lat p.lon clat clon)
        diversity := round2 (1 / (1 + (counts p.category : ℚ) * (1/10))) } := by
  simp only [scoreOne, qadd_eq, qmul_eq, qdiv_eq, natQ_eq,
    Rat.mkRat_eq_divInt, Rat.divInt_eq_div]
  norm_num

end OSMRecommender

namespace OSMRecommender

/-- C1: `OSMRecommender._rank_places` returns the input places (as a
permutation), each carrying `rank_score` equal to the weighted sum
0.35·popularity + 0.25·interest + 0.20·season + 0.10·distance +
0.10·diversity rounded to four decimal places (the diversity factor of the
entry at input index `i` being `1/(1 + 0.1·n)` where `n` counts earlier
same-category entries); the output is ordered descending by `rank_score`,
the `rank` field runs exactly 1..N in output order, and entries with equal
`rank_score` keep their relative input order (stable sort). -/
theorem C1_rank_places_weighted_stable (places : List Place)
    (interests : Option (List String)) (clat clon : ℚ) (month : ℕ) :
    List.Perm ((rank_places places interests clat clon month).map ScoredPlace.place) places ∧
    List.Perm ((rank_places places interests clat clon month).map stripRank)
      (scoreLoop interests clat clon month (fun _ => 0) places) ∧
    (∀ i (h : i < places.length)
      (h2 : i < (scoreLoop interests clat clon month (fun _ => 0) places).length),
      (scoreLoop interests clat clon month (fun _ => 0) places)[i].place = places[i] ∧
      (scoreLoop interests clat clon month (fun _ => 0) places)[i].rank_score =
        round4 (35/100 * calculate_popularity places[i]
          + 25/100 * calculate_interest_match places[i] interests
          + 20/100 * calculate_season_fit month places[i]
          + 10/100 * calculate_distance_score places[i].lat places[i].lon clat clon
          + 10/100 * (1 / (1 + (countCat (places.take i) places[i].category : ℚ) * (1/10))))) ∧
    (rank_places places interests clat clon month).Pairwise
      (fun a b => b.rank_score ≤ a.rank_score) ∧
    (rank_places places interests clat clon month).map ScoredPlace.rank =
      List.range' 1 places.length ∧
    (∀ s : ℚ, (scoreFilter s (rank_places places interests clat clon month)).map stripRank =
      scoreFilter s (scoreLoop interests clat clon month (fun _ => 0) places)) := by
  have hperm2 : List.Perm ((rank_places places interests clat clon month).map stripRank)
      (scoreLoop interests clat clon month (fun _ => 0) places) := by
    rw [rank_places, addRanks_map_strip]
    have h1 := (sortDesc_perm (scoreLoop interests clat clon month (fun _ => 0) places)).map stripRank
    rw [map_stripRank_of_rank_zero (scoreLoop_rank_zero interests clat clon month
      (fun _ => 0) places)] at h1
    exact h1
  refine ⟨?_, hperm2, ?_, ?_, ?_, ?_⟩
  · have h1 := hperm2.map ScoredPlace.place
    rw [List.map_map, scoreLoop_map_place] at h1
    have h2 : ScoredPlace.place ∘ stripRank = ScoredPlace.place := by
      funext sp; rfl
    rw [h2] at h1
    exact h1
  · intro i h h2
    rw [scoreLoop_getElem interests clat clon month (fun _ => 0) places i h h2]
    have hc : (fun c => (fun _ => 0) c + countCat (places.take i) c) =
        (fun c => countCat (places.take i) c) := by
      funext c; simp
    rw [hc]
    exact ⟨scoreOne_place _ _ _ _ _ _, scoreOne_rank_score _ _ _ _ _ _⟩
  · have hsorted := sortDesc_pairwise (scoreLoop interests clat clon month (fun _ => 0) places)
    have h1 : ((sortDesc (scoreLoop interests clat clon month (fun _ => 0) places)).map
        ScoredPlace.rank_score).Pairwise (fun a b : ℚ => b ≤ a) :=
      List.pairwise_map.mpr hsorted
    rw [← addRanks_map_score 1] at h1
    exact List.pairwise_map.mp h1
  · rw [rank_places, addRanks_map_rank]
    congr 1
    rw [(sortDesc_perm _).length_eq, scoreLoop_length]
  · intro s
    rw [rank_places, scoreFilter_addRanks_strip, scoreFilter_sortDesc]
    apply map_stripRank_of_rank_zero
    intro sp hsp
    exact scoreLoop_rank_zero interests clat clon month (fun _ => 0) places sp
      (List.mem_of_mem_filter hsp)

end OSMRecommender

namespace OSMRecommender

/-- An empty `tags` dictionary (all `tags.get(...)` lookups yield `None`). -/
def noTags : Tags := ⟨none, none, none, none, none, none, none, none, none⟩

/-- Demo candidate at the search centre. -/
def beachA : Place := ⟨"Marina Beach", "Beach", 0, 0, noTags⟩

/-- Demo candidate 0.2 degrees north of the centre. -/
def beachB : Place := ⟨"Elliot Beach", "Beach", mkRat 2 10, 0, noTags⟩

/-- Demo third beach for the diversity decay. -/
def beachC : Place := ⟨"Silver Beach", "Beach", 0, mkRat 2 10, noTags⟩

/-- Demo place whose `category` is "attraction" but whose tags carry no
`tourism` entry. -/
def attrNoTag : Place := ⟨"Plain Attraction", "attraction", 0, 0, noTags⟩

/-- Demo place tagged `tourism=attraction` with no other tags. -/
def attrTagged : Place :=
  ⟨"Tagged Attraction", "attraction", 0, 0,
   ⟨some "attraction", none, none, none, none, none, none, none, none⟩⟩

theorem C1_witness :
    (1 : ℕ) < [beachA, beachB].length ∧
    ((scoreLoop none 0 0 7 (fun _ => 0) [beachA, beachB]).get ⟨1, by decide⟩).rank_score =
      round4 (35/100 * calculate_popularity beachB
        + 25/100 * calculate_interest_match beachB none
        + 20/100 * calculate_season_fit 7 beachB
        + 10/100 * calculate_distance_score beachB.lat beachB.lon 0 0
        + 10/100 * (1 / (1 + (countCat ([beachA, beachB].take 1) beachB.category : ℚ) * (1/10)))) ∧
    (rank_places [beachA, beachB] none 0 0 7).map ScoredPlace.rank = List.range' 1 2 := by
  refine ⟨by decide, ?_, ?_⟩
  · exact ((C1_rank_places_weighted_stable [beachA, beachB] none 0 0 7).2.2.1
      1 (by decide) (by decide)).2
  · exact (C1_rank_places_weighted_stable [beachA, beachB] none 0 0 7).2.2.2.2.1

/-- C9: inside `_rank_places`, the diversity sub-score of the entry at
input index `i` is `1/(1 + 0.1·n)` where `n` is the number of earlier
entries of the same category (so the k-th entry of a category, k counted
from 1, gets `1/(1 + 0.1·(k−1))`): that raw factor enters the composite at
weight 0.10 and is recorded in the breakdown rounded to two decimals. -/
theorem C9_diversity_decay (places : List Place) (interests : Option (List String))
    (clat clon : ℚ) (month : ℕ) (i : ℕ) (h : i < places.length)
    (h2 : i < (scoreLoop interests clat clon month (fun _ => 0) places).length) :
    (scoreLoop interests clat clon month (fun _ => 0) places)[i].score_breakdown.diversity =
      round2 (1 / (1 + (countCat (places.take i) places[i].category : ℚ) * (1/10))) ∧
    (scoreLoop interests clat clon month (fun _ => 0) places)[i].rank_score =
      round4 (35/100 * calculate_popularity places[i]
        + 25/100 * calculate_interest_match places[i] interests
        + 20/100 * calculate_season_fit month places[i]
        + 10/100 * calculate_distance_score places[i].lat places[i].lon clat clon
        + 10/100 * (1 / (1 + (countCat (places.take i) places[i].category : ℚ) * (1/10)))) := by
  rw [scoreLoop_getElem interests clat clon month (fun _ => 0) places i h h2]
  have hc : (fun c => (fun _ => 0) c + countCat (places.take i) c) =
      (fun c => countCat (places.take i) c) := by
    funext c; simp
  rw [hc]
  constructor
  · rw [scoreOne_breakdown]
  · exact scoreOne_rank_score _ _ _ _ _ _

theorem C9_witness :
    (2 : ℕ) < [beachA, beachB, beachC].length ∧
    ((scoreLoop none 0 0 7 (fun _ => 0) [beachA, beachB, beachC]).get
      ⟨2, by decide⟩).score_breakdown.diversity =
      round2 (1 / (1 + (countCat ([beachA, beachB, beachC].take 2) beachC.category : ℚ) * (1/10))) ∧
    ((scoreLoop none 0 0 7 (fun _ => 0) [beachA, beachB, beachC]).get
      ⟨0, by decide⟩).score_breakdown.diversity = 1 ∧
    ((scoreLoop none 0 0 7 (fun _ => 0) [beachA, beachB, beachC]).get
      ⟨1, by decide⟩).score_breakdown.diversity = mkRat 91 100 ∧
    ((scoreLoop none 0 0 7 (fun _ => 0) [beachA, beachB, beachC]).get
      ⟨2, by decide⟩).score_breakdown.diversity = mkRat 83 100 := by
  refine ⟨by decide, ?_, by decide, by decide, by decide⟩
  exact (C9_diversity_decay [beachA, beachB, beachC] none 0 0 7 2 (by decide) (by decide)).1

/-- C4 counterexample: with `interests=None` (and likewise `[]`) the
interest-match sub-score is 0.5, not 0, refuting the claim at a concrete
place. -/
theorem C4_counterexample :
    calculate_interest_match beachA none = mkRat 1 2 ∧
    calculate_interest_match beachA (some []) = mkRat 1 2 ∧
    ¬ calculate_interest_match beachA none = 0 := by decide

/-- C4 amended: when the interests argument is `None` or the empty list,
`_calculate_interest_match` returns the neutral score 0.5 (not 0). -/
theorem C4_interest_match_neutral (p : Place) (interests : Option (List String))
    (h : interests = none ∨ interests = some []) :
    calculate_interest_match p interests = 1/2 := by
  have hm : mkRat 1 2 = (1 : ℚ)/2 := by
    rw [Rat.mkRat_eq_divInt, Rat.divInt_eq_div]; norm_num
  rcases h with h | h <;> subst h <;>
    simp [calculate_interest_match, hm]

theorem C4_witness :
    ((none : Option (List String)) = none ∨ (none : Option (List String)) = some []) ∧
    calculate_interest_match beachA none = 1/2 :=
  ⟨Or.inl rfl, C4_interest_match_neutral beachA none (Or.inl rfl)⟩

/-- C5 counterexample: a place whose `category` field is "attraction" but
whose tags have no `tourism` entry (and no wikipedia/website/description)
gets popularity 0.5, not 0.6 — `_calculate_popularity` never reads the
category; its +0.1 bonus keys on `tags.get('tourism') == 'attraction'`. -/
theorem C5_counterexample :
    calculate_popularity attrNoTag = mkRat 1 2 ∧
    ¬ calculate_popularity attrNoTag = mkRat 3 5 := by decide

/-- C5 amended: popularity is exactly 0.6 (base 0.5 plus the 0.1 bonus)
for a place whose tags carry `tourism=attraction` and no truthy
wikipedia/website/description entries; the `category` field plays no role
in `_calculate_popularity` at all. -/
theorem C5_popularity_attraction (p : Place)
    (hw : truthy p.tags.wikipedia = false)
    (hs : truthy p.tags.website = false)
    (hd : truthy p.tags.descriptionTag = false)
    (ht : p.tags.tourism = some "attraction") :
    calculate_popularity p = 3/5 ∧
    (∀ c' : String, calculate_popularity { p with category := c' } = calculate_popularity p) := by
  constructor
  · simp only [calculate_popularity, hw, hs, hd, ht, if_true, if_false,
      Bool.false_eq_true, if_neg (Bool.false_ne_true)]
    simp only [qadd_eq, Rat.mkRat_eq_divInt, Rat.divInt_eq_div]
    norm_num
  · intro c'
    rfl

theorem C5_witness :
    truthy attrTagged.tags.wikipedia = false ∧
    truthy attrTagged.tags.website = false ∧
    truthy attrTagged.tags.descriptionTag = false ∧
    attrTagged.tags.tourism = some "attraction" ∧
    calculate_popularity attrTagged = 3/5 :=
  ⟨by decide, by decide, by decide, by decide,
   (C5_popularity_attraction attrTagged (by decide) (by decide) (by decide) (by decide)).1⟩

end OSMRecommender

namespace FeatureEngineer

/-- A raw place record with the columns `create_place_features` expects
(`place_id, name, category, rating, reviews_count, price_level, latitude,
longitude, city, country`). -/
structure RawPlace where
  place_id : String
  name : String
  category : String
  rating : ℚ
  reviews_count : ℕ
  price_level : ℚ
  latitude : ℚ
  longitude : ℚ
  city : String
  country : String
deriving DecidableEq

/-- Model of `pd.cut(rating, bins=[0, 3, 4, 5], labels=[0, 1, 2])` for one
value: the bins are the right-closed intervals (0,3], (3,4], (4,5]; a value
outside all three (in particular any rating ≤ 0 or > 5) gets no bucket,
which pandas records as NaN. -/
def ratingBucket (r : ℚ) : Option ℤ :=
  if 0 < r ∧ r ≤ 3 then some 0
  else if 3 < r ∧ r ≤ 4 then some 1
  else if 4 < r ∧ r ≤ 5 then some 2
  else none

/-- Bucket every rating of the batch; `none` as soon as one value has no
bucket, modelling the `ValueError` that `.astype(int)` raises on a
categorical column containing NaN. -/
def bucketAll : List RawPlace → Option (List ℤ)
  | [] => some []
  | p :: ps =>
    match ratingBucket p.rating, bucketAll ps with
    | some b, some bs => some (b :: bs)
    | _, _ => none

/-- Ascending insertion for rationals (used for the batch median). -/
def insertAscQ (x : ℚ) : List ℚ → List ℚ
  | [] => [x]
  | y :: ys => if x ≤ y then x :: y :: ys else y :: insertAscQ x ys

/-- Ascending sort for rationals. -/
def sortAscQ : List ℚ → List ℚ
  | [] => []
  | x :: xs => insertAscQ x (sortAscQ xs)

/-- Model of `pandas.Series.median` (mean of the two middle values for an
even count, `NaN` — here `none` — for an empty series). -/
def medianQ (l : List ℚ) : Option ℚ :=
  match l with
  | [] => none
  | _ =>
    let s := sortAscQ l
    let n := l.length
    if n % 2 = 1 then some (s.getD (n / 2) 0)
    else some (qdiv (qadd (s.getD (n / 2 - 1) 0) (s.getD (n / 2) 0)) 2)

/-- Model of `pandas.Series.max` (`none` for an empty series). -/
def maxQ : List ℚ → Option ℚ
  | [] => none
  | x :: xs => some (xs.foldl (fun a b => if a ≤ b then b else a) x)

/-- Float division as pandas performs it element-wise: a zero divisor
produces a non-finite float (NaN for 0/0, ±inf otherwise), modelled as
`none`. -/
def divF (a b : ℚ) : Option ℚ := if b = 0 then none else some (qdiv a b)

/-- One output row of `create_place_features`: the derived feature columns
(plus the raw record, whose original columns the real DataFrame keeps). -/
structure PlaceFeatures where
  raw : RawPlace
  rating_normalized : ℚ
  has_rating : ℕ
  rating_quality : ℤ
  log_reviews : ℚ
  popularity_score : ℚ
  is_popular : ℕ
  price_level_normalized : ℚ
  is_budget_friendly : ℕ
  is_luxury : ℕ
  cat_dummies : List (String × Bool)
  lat_rounded : ℚ
  lon_rounded : ℚ
  quality_score : Option ℚ
deriving DecidableEq

/-- Build one feature row given its integer rating bucket. `get_dummies`
sorts its column labels alphabetically; the embedding enumerates the
batch's distinct categories in first-occurrence order instead, which only
permutes the dummy columns and affects no claim. `quality_score` is
`Option`-valued because its middle term divides by the batch maximum of
`log_reviews`, which pandas lets collapse to NaN. -/
def mkFeatures (log1p : ℕ → ℚ) (batch : List RawPlace) (p : RawPlace)
    (b : ℤ) : PlaceFeatures :=
  let cats := (batch.map RawPlace.category).eraseDups
  { raw := p
    rating_normalized := qdiv p.rating 5
    has_rating := if 0 < p.rating then 1 else 0
    rating_quality := b
    log_reviews := log1p p.reviews_count
    popularity_score := qmul p.rating (log1p p.reviews_count)
    is_popular :=
      match medianQ (batch.map (fun q => natQ q.reviews_count)) with
      | none => 0
      | some med => if med < natQ p.reviews_count then 1 else 0
    price_level_normalized := qdiv p.price_level 4
    is_budget_friendly := if p.price_level ≤ 2 then 1 else 0
    is_luxury := if 3 ≤ p.price_level then 1 else 0
    cat_dummies := cats.map (fun c => (c, p.category = c))
    lat_rounded := round2 p.latitude
    lon_rounded := round2 p.longitude
    quality_score :=
      match maxQ (batch.map (fun q => log1p q.reviews_count)) with
      | none => none
      | some mx =>
        (divF (log1p p.reviews_count) mx).map (fun t =>
          qadd (qadd (qmul (qdiv p.rating 5) (mkRat 4 10))
            (qmul t (mkRat 3 10)))
            (qmul (qdiv (qsub 5 p.price_level) 4) (mkRat 3 10))) }

/-- Embedding of `FeatureEngineer.create_place_features` on a batch whose
`rating` column is present (the claims quantify over such batches; the
source would synthesize a constant 4.0 column otherwise). The whole call
fails — pandas `ValueError` from `.astype(int)` — as soon as any rating
falls outside the `pd.cut` bins. -/
def create_place_features (log1p : ℕ → ℚ) (batch : List RawPlace) :
    Except String (List PlaceFeatures) :=
  match bucketAll batch with
  | none => .error "Cannot convert non-finite values (NA or INF) to integer"
  | some bs => .ok (List.zipWith (mkFeatures log1p batch) batch bs)

end FeatureEngineer

namespace FeatureEngineer

theorem ratingBucket_of_range (r : ℚ) (h1 : 0 < r) (h2 : r ≤ 5) :
    ratingBucket r = some (if r ≤ 3 then 0 else if r ≤ 4 then 1 else 2) := by
  unfold ratingBucket
  by_cases h3 : r ≤ 3
  · rw [if_pos ⟨h1, h3⟩, if_pos h3]
  · rw [if_neg (fun hc => h3 hc.2), if_neg h3]
    by_cases h4 : r ≤ 4
    · rw [if_pos ⟨not_le.mp h3, h4⟩, if_pos h4]
    · rw [if_neg (fun hc => h4 hc.2), if_neg h4,
        if_pos ⟨not_le.mp h4, h2⟩]

theorem bucketAll_eq (batch : List RawPlace)
    (h : ∀ p ∈ batch, 0 < p.rating ∧ p.rating ≤ 5) :
    bucketAll batch = some (batch.map (fun p =>
      if p.rating ≤ 3 then 0 else if p.rating ≤ 4 then 1 else 2)) := by
  induction batch with
  | nil => rfl
  | cons p ps ih =>
    have hp := h p (List.mem_cons_self p ps)
    have hps := ih (fun q hq => h q (List.mem_cons_of_mem p hq))
    rw [bucketAll, ratingBucket_of_range p.rating hp.1 hp.2, hps, List.map_cons]

/-- C6 counterexample: a batch containing a place with rating 0 makes
`create_place_features` raise — `pd.cut` with bins `[0,3,4,5]` excludes 0,
so the bucket is NaN and `.astype(int)` fails. -/
theorem C6_counterexample :
    create_place_features (fun n => natQ n)
      [⟨"p1", "Zero Rated", "museum", 0, 5, 2, 0, 0, "c", "C"⟩] =
      Except.error "Cannot convert non-finite values (NA or INF) to integer" := by decide

/-- C6 amended: for every batch whose ratings all lie in (0,5],
`create_place_features` succeeds, keeps the row count, and assigns
`rating_quality` by the right-closed buckets (0,3] ↦ 0 (low, including
rating exactly 3.0), (3,4] ↦ 1, (4,5] ↦ 2; a rating ≤ 0 (in particular
rating = 0) falls outside every `pd.cut` bin, so the batch fails instead of
landing in "low". -/
theorem C6_rating_quality_buckets (log1p : ℕ → ℚ) (batch : List RawPlace)
    (h : ∀ p ∈ batch, 0 < p.rating ∧ p.rating ≤ 5) :
    ∃ out, create_place_features log1p batch = .ok out ∧
      out.length = batch.length ∧
      ∀ i (hi : i < batch.length) (hi2 : i < out.length),
        out[i].rating_quality =
          (if batch[i].rating ≤ 3 then 0 else if batch[i].rating ≤ 4 then 1 else 2) := by
  rw [create_place_features, bucketAll_eq batch h]
  refine ⟨_, rfl, ?_, ?_⟩
  · simp
  · intro i hi hi2
    rw [List.getElem_zipWith]
    rw [List.getElem_map]
    rfl

theorem C6_witness :
    (∀ p ∈ [(⟨"p3", "Edge Rated", "museum", 3, 7, 2, 0, 0, "c", "C"⟩ : RawPlace)],
      0 < p.rating ∧ p.rating ≤ 5) ∧
    (∃ out, create_place_features (fun n => natQ n)
        [(⟨"p3", "Edge Rated", "museum", 3, 7, 2, 0, 0, "c", "C"⟩ : RawPlace)] = .ok out ∧
      out.length = 1 ∧
      ∀ i (hi : i < ([(⟨"p3", "Edge Rated", "museum", 3, 7, 2, 0, 0, "c", "C"⟩ : RawPlace)] :
          List RawPlace).length) (hi2 : i < out.length),
        out[i].rating_quality =
          (if ([(⟨"p3", "Edge Rated", "museum", 3, 7, 2, 0, 0, "c", "C"⟩ : RawPlace)] :
              List RawPlace)[i].rating ≤ 3 then 0
           else if ([(⟨"p3", "Edge Rated", "museum", 3, 7, 2, 0, 0, "c", "C"⟩ : RawPlace)] :
              List RawPlace)[i].rating ≤ 4 then 1 else 2)) :=
  ⟨by decide,
   C6_rating_quality_buckets (fun n => natQ n)
     [⟨"p3", "Edge Rated", "museum", 3, 7, 2, 0, 0, "c", "C"⟩] (by decide)⟩

theorem maxQ_replicate_zero (n : ℕ) (hn : n ≠ 0) :
    maxQ (List.replicate n (0 : ℚ)) = some 0 := by
  cases n with
  | zero => exact absurd rfl hn
  | succ m =>
    rw [List.replicate_succ, maxQ]
    congr 1
    induction m with
    | zero => rfl
    | succ k ihk =>
      rw [List.replicate_succ, List.foldl_cons]
      simpa using ihk

theorem zipWith_forall_mem {α β γ : Type} {f : α → β → γ} (P : γ → Prop)
    (h : ∀ a b, P (f a b)) :
    ∀ (l1 : List α) (l2 : List β) (c : γ), c ∈ List.zipWith f l1 l2 → P c := by
  intro l1
  induction l1 with
  | nil => intro l2 c hc; simp at hc
  | cons a as ih =>
    intro l2 c hc
    cases l2 with
    | nil => simp at hc
    | cons b bs =>
      rw [List.zipWith_cons_cons] at hc
      rcases List.mem_cons.mp hc with hc | hc
      · subst hc; exact h a b
      · exact ih bs c hc

/-- C7 counterexample: a batch whose only place has zero reviews gives
batch-max `log_reviews` 0 and `quality_score` becomes NaN (0/0) — there is
no division-by-zero guard, refuting the claimed well-defined value
0.4·(4/5) + 0.3·(3/4). -/
theorem C7_counterexample :
    Except.map (fun out => out.map PlaceFeatures.quality_score)
      (create_place_features (fun n => natQ n)
        [⟨"p2", "No Reviews", "museum", 4, 0, 2, 0, 0, "c", "C"⟩]) =
      Except.ok [none] ∧
    ¬ Except.map (fun out => out.map PlaceFeatures.quality_score)
      (create_place_features (fun n => natQ n)
        [⟨"p2", "No Reviews", "museum", 4, 0, 2, 0, 0, "c", "C"⟩]) =
      Except.ok [some (mkRat 109 200)] := by decide

/-- C7 amended: in a batch where every place has zero reviews (so, with
`log1p 0 = 0`, the batch maximum of `log_reviews` is 0) and ratings are in
the bucketable range, `create_place_features` still succeeds but every
row's `quality_score` is NaN: the middle term is 0/0 and no guard zeroes it
out. -/
theorem C7_quality_score_no_guard (log1p : ℕ → ℚ) (batch : List RawPlace)
    (h0 : log1p 0 = 0)
    (hr : ∀ p ∈ batch, 0 < p.rating ∧ p.rating ≤ 5)
    (hz : ∀ p ∈ batch, p.reviews_count = 0) :
    ∃ out, create_place_features log1p batch = .ok out ∧
      ∀ row ∈ out, row.quality_score = none := by
  have hmap : batch.map (fun q => log1p q.reviews_count) =
      List.replicate batch.length 0 := by
    rw [List.eq_replicate_iff]
    refine ⟨by simp, ?_⟩
    intro b hb
    rcases List.mem_map.mp hb with ⟨q, hq, hqb⟩
    rw [← hqb, hz q hq, h0]
  have hquality : ∀ (p : RawPlace) (b : ℤ),
      (mkFeatures log1p batch p b).quality_score = none := by
    intro p b
    rw [mkFeatures]
    simp only [hmap]
    cases hcase : batch.length with
    | zero => rfl
    | succ m =>
      rw [maxQ_replicate_zero (m + 1) (Nat.succ_ne_zero m)]
      simp [divF]
  rw [create_place_features, bucketAll_eq batch hr]
  exact ⟨_, rfl, fun row hrow =>
    zipWith_forall_mem (fun r => r.quality_score = none) hquality batch _ row hrow⟩

theorem C7_witness :
    (fun n => natQ n) 0 = 0 ∧
    (∀ p ∈ [(⟨"p2", "No Reviews", "museum", 4, 0, 2, 0, 0, "c", "C"⟩ : RawPlace)],
      0 < p.rating ∧ p.rating ≤ 5) ∧
    (∀ p ∈ [(⟨"p2", "No Reviews", "museum", 4, 0, 2, 0, 0, "c", "C"⟩ : RawPlace)],
      p.reviews_count = 0) ∧
    (∃ out, create_place_features (fun n => natQ n)
        [(⟨"p2", "No Reviews", "museum", 4, 0, 2, 0, 0, "c", "C"⟩ : RawPlace)] = .ok out ∧
      ∀ row ∈ out, row.quality_score = none) :=
  ⟨rfl, by decide, by decide,
   C7_quality_score_no_guard (fun n => natQ n)
     [⟨"p2", "No Reviews", "museum", 4, 0, 2, 0, 0, "c", "C"⟩]
     rfl (by decide) (by decide)⟩

end FeatureEngineer

namespace MLBudgetModel

/-- A numeric DataFrame, row-major: the column names and one list of
values per row (rows are aligned with `cols` positionally). -/
structure NFrame where
  cols : List String
  rows : List (List ℚ)
deriving DecidableEq

/-- State of an `MLBudgetModel` instance: the fitted regressor is
abstracted as a function from the scaled feature vector to the prediction
(the claims under scrutiny do not depend on the regressor's internals),
and the fitted `StandardScaler` as its per-feature mean and scale. -/
structure Model where
  is_trained : Bool
  feature_names : List String
  scaler_mean : List ℚ
  scaler_scale : List ℚ
  modelFun : List ℚ → ℚ

/-- First position of a column name (leftmost match, as pandas label
lookup on a frame with unique column labels). -/
def idxOf : List String → String → Option ℕ
  | [], _ => none
  | c :: cs, f => if c = f then some 0 else (idxOf cs f).map (· + 1)

/-- Position of each requested column inside `cols`; `none` when any
requested column is missing — `X[self.feature_names]` raises `KeyError`
in that case, it does not zero-fill. -/
def colIdx (cols : List String) : List String → Option (List ℕ)
  | [] => some []
  | f :: fs =>
    match idxOf cols f, colIdx cols fs with
    | some i, some is => some (i :: is)
    | _, _ => none

/-- The zero-fill loop of `predict_trip_budget`: `for feat in
self.feature_names: if feat not in df.columns: df[feat] = 0`. -/
def fillMissing (feature_names : List String) (df : NFrame) : NFrame :=
  feature_names.foldl
    (fun acc f =>
      if f ∈ acc.cols then acc
      else ⟨acc.cols ++ [f], acc.rows.map (fun row => row ++ [0])⟩)
    df

/-- The `StandardScaler.transform` step followed by the regressor, for one
row already reordered to the stored feature order. -/
def scoreRow (m : Model) (row : List ℚ) : ℚ :=
  m.modelFun ((List.zip row (List.zip m.scaler_mean m.scaler_scale)).map
    (fun x => qdiv (qsub x.1 x.2.1) x.2.2))

/-- Embedding of `MLBudgetModel.predict`: raises when untrained; selects
`X[self.feature_names]` (raising `KeyError` when a stored feature is
absent from X); scales and applies the regressor per row. -/
def predict (m : Model) (X : NFrame) : Except String (List ℚ) :=
  if m.is_trained = false then
    .error "Model not trained. Call train() first or load a trained model."
  else
    match colIdx X.cols m.feature_names with
    | none => .error "KeyError: feature names not in columns"
    | some idxs =>
      .ok (X.rows.map (fun row => scoreRow m (idxs.map (fun i => row.getD i 0))))

/-- Embedding of `MLBudgetModel.predict_trip_budget`: builds a one-row
frame from the dict, appends a zero column for every stored feature that
is absent, restricts to the stored feature order, and predicts. -/
def predict_trip_budget (m : Model) (trip : List (String × ℚ)) :
    Except String ℚ :=
  if m.is_trained = false then .error "Model not trained"
  else
    let df : NFrame := ⟨trip.map Prod.fst, [trip.map Prod.snd]⟩
    let filled : NFrame := fillMissing m.feature_names df
    let selected : NFrame :=
      match colIdx filled.cols m.feature_names with
      | none => ⟨m.feature_names, []⟩
      | some idxs =>
        ⟨m.feature_names, filled.rows.map (fun row => idxs.map (fun i => row.getD i 0))⟩
    match predict m selected with
    | .error e => .error e
    | .ok preds => .ok (preds.getD 0 0)

end MLBudgetModel

namespace MLBudgetModel

/-- One persisted artifact: `save` writes the regressor, the scaler and
the feature-name list as three separate `joblib` files. -/
inductive Blob where
  | reg (f : List ℚ → ℚ)
  | scl (mean scale : List ℚ)
  | feats (names : List String)

/-- The persisted-artifact store (path ↦ most recent content; a fresh
`joblib.dump` to an existing path overwrites, which prepending plus
first-match lookup models). -/
def Store := List (String × Blob)

/-- Embedding of `MLBudgetModel.save`: raises on an untrained model,
writes the three artifacts, then verifies all three paths exist and
returns that boolean. -/
def save (m : Model) (name : String) (store : Store) :
    Except String (Bool × Store) :=
  if m.is_trained = false then .error "No trained model to save"
  else
    let s1 : Store := (name ++ ".joblib", Blob.reg m.modelFun) :: store
    let s2 : Store := (name ++ "_scaler.joblib", Blob.scl m.scaler_mean m.scaler_scale) :: s1
    let s3 : Store := (name ++ "_features.joblib", Blob.feats m.feature_names) :: s2
    let ok := (List.lookup (name ++ ".joblib") s3).isSome &&
      (List.lookup (name ++ "_scaler.joblib") s3).isSome &&
      (List.lookup (name ++ "_features.joblib") s3).isSome
    .ok (ok, s3)

/-- Embedding of `MLBudgetModel.load`: `FileNotFoundError` when the
primary artifact is missing; loads the three artifacts into a fresh
instance and marks it trained. A stored blob of the wrong kind is a
corrupt artifact (its unpickling cannot produce the expected object). -/
def load (name : String) (store : Store) : Except String Model :=
  match List.lookup (name ++ ".joblib") store with
  | none => .error ("Model file not found: trained_models/" ++ name ++ ".joblib")
  | some b1 =>
    match List.lookup (name ++ "_scaler.joblib") store,
        List.lookup (name ++ "_features.joblib") store with
    | some b2, some b3 =>
      match b1, b2, b3 with
      | Blob.reg f, Blob.scl mean scale, Blob.feats names =>
        .ok ⟨true, names, mean, scale, f⟩
      | _, _, _ => .error "Error loading model: corrupt artifact"
    | _, _ => .error "Error loading model: missing artifact"

theorem strApp_left_cancel {n a b : String} (h : n ++ a = n ++ b) : a = b := by
  have hd : n.data ++ a.data = n.data ++ b.data := by
    rw [← String.data_append, ← String.data_append, h]
  have hab : a.data = b.data := List.append_cancel_left hd
  cases a; cases b
  exact congrArg String.mk hab

end MLBudgetModel

namespace MLBudgetModel

/-- C8: saving a trained budget model and loading it back under the same
name restores the regressor, scaler and feature-name list, so the loaded
instance predicts identically to the original on every input batch; the
save-time existence verification also reports success. -/
theorem C8_save_load_roundtrip (m : Model) (h : m.is_trained = true)
    (name : String) (store : Store) :
    ∃ store', save m name store = .ok (true, store') ∧
      ∃ m', load name store' = .ok m' ∧ ∀ X, predict m' X = predict m X := by
  have h1 : (name ++ ".joblib") ≠ (name ++ "_features.joblib") := fun hc =>
    absurd (strApp_left_cancel hc) (by decide)
  have h2 : (name ++ ".joblib") ≠ (name ++ "_scaler.joblib") := fun hc =>
    absurd (strApp_left_cancel hc) (by decide)
  have h3 : (name ++ "_scaler.joblib") ≠ (name ++ "_features.joblib") := fun hc =>
    absurd (strApp_left_cancel hc) (by decide)
  have e1 : ((name ++ ".joblib") == (name ++ "_features.joblib")) = false :=
    beq_eq_false_iff_ne.mpr h1
  have e2 : ((name ++ ".joblib") == (name ++ "_scaler.joblib")) = false :=
    beq_eq_false_iff_ne.mpr h2
  have e3 : ((name ++ "_scaler.joblib") == (name ++ "_features.joblib")) = false :=
    beq_eq_false_iff_ne.mpr h3
  refine ⟨(name ++ "_features.joblib", Blob.feats m.feature_names) ::
    (name ++ "_scaler.joblib", Blob.scl m.scaler_mean m.scaler_scale) ::
    (name ++ ".joblib", Blob.reg m.modelFun) :: store, ?_, ?_⟩
  · rw [save, h]
    simp only [Bool.true_eq_false, if_false]
    simp [List.lookup, e1, e2, e3]
  · refine ⟨⟨true, m.feature_names, m.scaler_mean, m.scaler_scale, m.modelFun⟩, ?_, ?_⟩
    · rw [load]
      simp [List.lookup, e1, e2, e3]
    · intro X
      have hm : (⟨true, m.feature_names, m.scaler_mean, m.scaler_scale, m.modelFun⟩ : Model) = m := by
        cases m with
        | mk t fn mean scale f =>
          simp only at h
          subst h
          rfl
      rw [hm]

end MLBudgetModel

namespace MLBudgetModel

theorem idxOf_some_of_mem {cols : List String} {f : String} (h : f ∈ cols) :
    ∃ i, idxOf cols f = some i := by
  induction cols with
  | nil => simp at h
  | cons c cs ih =>
    by_cases hc : c = f
    · exact ⟨0, by simp [idxOf, hc]⟩
    · rcases List.mem_cons.mp h with hf | hf
      · exact absurd hf.symm hc
      · obtain ⟨i, hi⟩ := ih hf
        exact ⟨i + 1, by simp [idxOf, hc, hi]⟩

theorem colIdx_some_of_mem (cols fs : List String)
    (h : ∀ f ∈ fs, f ∈ cols) : ∃ idxs, colIdx cols fs = some idxs := by
  induction fs with
  | nil => exact ⟨[], rfl⟩
  | cons f fs ih =>
    obtain ⟨i, hi⟩ := idxOf_some_of_mem (h f (List.mem_cons_self f fs))
    obtain ⟨is, his⟩ := ih (fun g hg => h g (List.mem_cons_of_mem f hg))
    exact ⟨i :: is, by rw [colIdx, hi, his]⟩

theorem fillMissing_cols_mono (fs : List String) (df : NFrame) :
    ∀ c ∈ df.cols, c ∈ (fillMissing fs df).cols := by
  induction fs generalizing df with
  | nil => intro c hc; exact hc
  | cons f fs ih =>
    intro c hc
    rw [fillMissing, List.foldl_cons]
    by_cases hf : f ∈ df.cols
    · rw [if_pos hf]
      exact ih df c hc
    · rw [if_neg hf]
      exact ih _ c (List.mem_append_left _ hc)

theorem fillMissing_mem (fs : List String) (df : NFrame) :
    ∀ f ∈ fs, f ∈ (fillMissing fs df).cols := by
  induction fs generalizing df with
  | nil => intro f hf; simp at hf
  | cons g gs ih =>
    intro f hf
    rw [fillMissing, List.foldl_cons]
    rcases List.mem_cons.mp hf with hf | hf
    · subst hf
      by_cases hg : f ∈ df.cols
      · rw [if_pos hg]
        exact fillMissing_cols_mono gs df f hg
      · rw [if_neg hg]
        exact fillMissing_cols_mono gs _ f (List.mem_append_right _ (by simp))
    · by_cases hg : g ∈ df.cols
      · rw [if_pos hg]
        exact ih df f hf
      · rw [if_neg hg]
        exact ih _ f hf

/-- C3 counterexample: a trained model whose stored features are
`num_days` and `num_people`, applied to a frame carrying only `num_days`,
makes `predict` raise a `KeyError` — `X[self.feature_names]` does not
synthesize missing columns. -/
theorem C3_counterexample :
    predict ⟨true, ["num_days", "num_people"], [0, 0], [1, 1],
        fun row => row.foldl qadd 0⟩
      ⟨["num_days"], [[3]]⟩ = .error "KeyError: feature names not in columns" := by
  rfl

/-- C3 amended: `predict` itself raises a `KeyError` whenever a stored
feature name is absent from the input's columns; the zero-fill of missing
features happens one layer up, in `predict_trip_budget`, which appends a
zero column for every absent stored feature before selecting, and
therefore never raises on a trained model. -/
theorem C3_predict_missing_columns :
    (∀ (m : Model) (X : NFrame), m.is_trained = true →
      colIdx X.cols m.feature_names = none →
      predict m X = .error "KeyError: feature names not in columns") ∧
    (∀ (m : Model) (trip : List (String × ℚ)), m.is_trained = true →
      ∃ v, predict_trip_budget m trip = .ok v) := by
  constructor
  · intro m X hm hidx
    unfold predict
    rw [hm]
    simp only [Bool.true_eq_false, if_false]
    rw [hidx]
  · intro m trip hm
    unfold predict_trip_budget
    rw [hm]
    simp only [Bool.true_eq_false, if_false]
    obtain ⟨idxs, hidxs⟩ := colIdx_some_of_mem
      (fillMissing m.feature_names ⟨trip.map Prod.fst, [trip.map Prod.snd]⟩).cols
      m.feature_names
      (fun f hf => fillMissing_mem m.feature_names _ f hf)
    rw [hidxs]
    obtain ⟨idxs2, hidxs2⟩ := colIdx_some_of_mem m.feature_names
      m.feature_names (fun f hf => hf)
    unfold predict
    rw [hm]
    simp only [Bool.true_eq_false, if_false]
    rw [hidxs2]
    exact ⟨_, rfl⟩

/-- Demo trained budget model for the round-trip and fallback witnesses. -/
def demoBudget : Model :=
  ⟨true, ["num_days"], [0], [1], fun row => row.foldl qadd 0⟩

theorem C3_witness :
    demoBudget.is_trained = true ∧
    colIdx (["num_people"] : List String) demoBudget.feature_names = none ∧
    predict demoBudget ⟨["num_people"], [[2]]⟩ =
      .error "KeyError: feature names not in columns" ∧
    (∃ v, predict_trip_budget demoBudget [("num_people", 2)] = .ok v) :=
  ⟨rfl, rfl,
   (C3_predict_missing_columns.1 demoBudget ⟨["num_people"], [[2]]⟩ rfl rfl),
   C3_predict_missing_columns.2 demoBudget [("num_people", 2)] rfl⟩

theorem C8_witness :
    demoBudget.is_trained = true ∧
    (∃ store', save demoBudget "budget_model" ([] : Store) = .ok (true, store') ∧
      ∃ m', load "budget_model" store' = .ok m' ∧
        ∀ X, predict m' X = predict demoBudget X) :=
  ⟨rfl, C8_save_load_roundtrip demoBudget rfl "budget_model" []⟩

end MLBudgetModel

namespace MLRankingModel

/-- One row of the places DataFrame handed to
`MLRankingModel.rank_places`, with the base columns the fallback scorer
reads. -/
structure PlaceRow where
  place_id : String
  name : String
  rating : ℚ
  reviews_count : ℕ
  price_level : ℚ
  category : String
deriving DecidableEq

/-- The places DataFrame: its typed base rows plus the numeric columns
added by assignment (`df[key] = value`), newest binding first in reading
order. A numeric read consults `extra` first, which models pandas
overwriting an existing column on assignment. -/
structure Frame where
  rows : List PlaceRow
  extra : List (String × List ℚ)
deriving DecidableEq

/-- Well-formed places frame: no added numeric column shadows one of the
base place columns (a shadowed frame would make pandas read the shadowing
values where this embedding reads the typed base fields). -/
def baseColNames : List String :=
  ["place_id", "name", "rating", "reviews_count", "price_level", "category"]

def WellFormed (df : Frame) : Prop := ∀ kv ∈ df.extra, kv.1 ∉ baseColNames

/-- State of an `MLRankingModel` instance; the fitted regressor is
abstracted as a function of the scaled feature vector. -/
structure Model where
  is_trained : Bool
  feature_names : List String
  scaler_mean : List ℚ
  scaler_scale : List ℚ
  modelFun : List ℚ → ℚ

/-- Numeric column lookup: columns added by assignment shadow the numeric
base columns of the same name. -/
def numCol (df : Frame) (k : String) : Option (List ℚ) :=
  match List.lookup k df.extra with
  | some v => some v
  | none =>
    match k with
    | "rating" => some (df.rows.map PlaceRow.rating)
    | "reviews_count" => some (df.rows.map (fun p => natQ p.reviews_count))
    | "price_level" => some (df.rows.map PlaceRow.price_level)
    | _ => none

/-- Column assignment `df[key] = value`. -/
def setCol (df : Frame) (k : String) (v : List ℚ) : Frame :=
  ⟨df.rows, upsert df.extra k v⟩

/-- Select every stored feature column; `none` (a `KeyError`) if any is
missing. -/
def colsFor (df : Frame) : List String → Option (List (List ℚ))
  | [] => some []
  | f :: fs =>
    match numCol df f, colsFor df fs with
    | some c, some cs => some (c :: cs)
    | _, _ => none

/-- Embedding of `MLRankingModel.predict`. -/
def predict (m : Model) (df : Frame) : Except String (List ℚ) :=
  if m.is_trained = false then
    .error "Model not trained. Call train() first or load a trained model."
  else
    match colsFor df m.feature_names with
    | none => .error "KeyError: feature names not in columns"
    | some cols =>
      .ok ((List.range df.rows.length).map (fun i =>
        m.modelFun ((cols.zip (m.scaler_mean.zip m.scaler_scale)).map
          (fun x => qdiv (qsub (x.1.getD i 0) x.2.1) x.2.2))))

/-- The user-interest extraction of `_fallback_ranking`:
`[k.replace('interest_','') for k, v in user_features.items()
if k.startswith('interest_') and v == 1]`. -/
def userInterests (uf : List (String × ℚ)) : List String :=
  (uf.filter (fun kv => isPre "interest_".data kv.1.data && decide (kv.2 = 1))).map
    (fun kv => strReplace kv.1 "interest_" "")

/-- The `category_interest_map` constant of `_fallback_ranking`. -/
def category_interest_map : List (String × List String) :=
  [("museum", ["culture", "history"]),
   ("restaurant", ["food"]),
   ("park", ["nature", "relaxation"]),
   ("beach", ["beach", "relaxation"]),
   ("shopping", ["shopping"]),
   ("nightlife", ["nightlife"]),
   ("attraction", ["culture", "adventure"])]

/-- Count of matching category-interest keywords
(`len(set(user_interests) & set(cat_interests))`; the map's keyword lists
are duplicate-free, so filtering them by membership counts the
intersection). -/
def interestMatches (ui : List String) (category : String) : ℕ :=
  (((List.lookup (lowerStr category) category_interest_map).getD []).filter
    (fun c => c ∈ ui)).length

/-- The fallback score of one place row. -/
def fallbackScore (log1p : ℕ → ℚ) (uf : List (String × ℚ)) (p : PlaceRow) : ℚ :=
  let user_budget := (List.lookup "budget_encoded" uf).getD 2
  let base := qadd (qdiv p.rating 5) (qdiv (log1p p.reviews_count) 10)
  let afterBudget := qsub base (qmul (qabs (qsub p.price_level user_budget)) (mkRat 1 10))
  let ui := userInterests uf
  if ui.isEmpty then afterBudget
  else qadd afterBudget (qmul (natQ (interestMatches ui p.category)) (mkRat 2 10))

/-- The materialized result record
`{place_id, name, score, rating, category, price_level}`. -/
structure RankResult where
  place_id : String
  name : String
  score : ℚ
  rating : ℚ
  category : String
  price_level : ℚ
deriving DecidableEq

def mkResult (p : PlaceRow) (s : ℚ) : RankResult :=
  ⟨p.place_id, p.name, s, p.rating, p.category, p.price_level⟩

/-- Descending insertion by score for (row, score) pairs. `sort_values`
leaves the order of exact ties unspecified (its default quicksort is not
stable); the embedding fixes the stable order, which no claim under
scrutiny depends on. -/
def insertDescRow (x : PlaceRow × ℚ) : List (PlaceRow × ℚ) → List (PlaceRow × ℚ)
  | [] => [x]
  | y :: ys => if y.2 ≤ x.2 then x :: y :: ys else y :: insertDescRow x ys

def sortDescRow : List (PlaceRow × ℚ) → List (PlaceRow × ℚ)
  | [] => []
  | x :: xs => insertDescRow x (sortDescRow xs)

/-- Embedding of `MLRankingModel._fallback_ranking` (which works on
`places_df.copy()`, so it never touches the caller's frame). -/
def fallback_ranking (log1p : ℕ → ℚ) (df : Frame) (uf : List (String × ℚ))
    (top_k : ℕ) : List RankResult :=
  let scored := df.rows.map (fun p => (p, fallbackScore log1p uf p))
  ((sortDescRow scored).take top_k).map (fun x => mkResult x.1 x.2)

/-- The user-feature broadcast loop of the trained path:
`for key, value in user_features.items(): places_df[key] = value`. -/
def broadcast (uf : List (String × ℚ)) (df : Frame) : Frame :=
  uf.foldl (fun d kv => setCol d kv.1 (List.replicate d.rows.length kv.2)) df

/-- Embedding of `MLRankingModel.rank_places`: returns the result list
together with the caller's frame as it stands after the call (the Python
method mutates `places_df` in place on the trained path). -/
def rank_places (log1p : ℕ → ℚ) (m : Model) (df : Frame)
    (uf : List (String × ℚ)) (top_k : ℕ) : List RankResult × Frame :=
  if m.is_trained = false then (fallback_ranking log1p df uf top_k, df)
  else
    let df1 := broadcast uf df
    match predict m df1 with
    | .error _ => (fallback_ranking log1p df1 uf top_k, df1)
    | .ok scores =>
      let df2 := setCol df1 "ml_score" scores
      (((sortDescRow (df2.rows.zip scores)).take top_k).map
        (fun x => mkResult x.1 x.2), df2)

end MLRankingModel

namespace MLRankingModel

theorem insertDescRow_perm (x : PlaceRow × ℚ) (l : List (PlaceRow × ℚ)) :
    List.Perm (insertDescRow x l) (x :: l) := by
  induction l with
  | nil => exact List.Perm.refl _
  | cons y ys ih =>
    rw [insertDescRow]
    by_cases h : y.2 ≤ x.2
    · rw [if_pos h]
    · rw [if_neg h]
      exact List.Perm.trans (List.Perm.cons y ih) (List.Perm.swap x y ys)

theorem sortDescRow_perm (l : List (PlaceRow × ℚ)) :
    List.Perm (sortDescRow l) l := by
  induction l with
  | nil => exact List.Perm.refl _
  | cons x xs ih =>
    exact List.Perm.trans (insertDescRow_perm x (sortDescRow xs)) (List.Perm.cons x ih)

/-- The fallback score, restated with the standard rational operations
in the shape of the specification formula (when no user interest is set,
the keyword-match count is zero, so the two branches coincide). -/
theorem fallbackScore_eq (log1p : ℕ → ℚ) (uf : List (String × ℚ)) (p : PlaceRow) :
    fallbackScore log1p uf p =
      p.rating / 5 + log1p p.reviews_count / 10
        - |p.price_level - (List.lookup "budget_encoded" uf).getD 2| * (1/10)
        + (interestMatches (userInterests uf) p.category : ℚ) * (2/10) := by
  rw [fallbackScore]
  by_cases hui : (userInterests uf).isEmpty
  · rw [if_pos hui]
    have hm : interestMatches (userInterests uf) p.category = 0 := by
      rw [interestMatches, List.isEmpty_iff.mp hui]
      simp
    rw [hm]
    simp only [qadd_eq, qsub_eq, qmul_eq, qdiv_eq, qabs_eq,
      Rat.mkRat_eq_divInt, Rat.divInt_eq_div]
    push_cast
    ring
  · rw [if_neg hui]
    simp only [qadd_eq, qsub_eq, qmul_eq, qdiv_eq, qabs_eq, natQ_eq,
      Rat.mkRat_eq_divInt, Rat.divInt_eq_div]
    push_cast
    ring

/-- C2: with an untrained model, `rank_places` takes the fallback path:
it cannot raise (the embedding is a total function and the caller's frame
is returned untouched), returns exactly `min top_k (number of places)`
results, and every result's score is the deterministic fallback score
rating/5 + log1p(reviews)/10 − 0.1·|price − budget| + 0.2·(keyword
matches). -/
theorem C2_untrained_fallback (log1p : ℕ → ℚ) (m : Model) (df : Frame)
    (uf : List (String × ℚ)) (top_k : ℕ)
    (_hwf : WellFormed df) (hm : m.is_trained = false) :
    rank_places log1p m df uf top_k = (fallback_ranking log1p df uf top_k, df) ∧
    (fallback_ranking log1p df uf top_k).length = min top_k df.rows.length ∧
    (∀ r ∈ fallback_ranking log1p df uf top_k, ∃ p ∈ df.rows,
      r = mkResult p (p.rating / 5 + log1p p.reviews_count / 10
        - |p.price_level - (List.lookup "budget_encoded" uf).getD 2| * (1/10)
        + (interestMatches (userInterests uf) p.category : ℚ) * (2/10))) := by
  refine ⟨?_, ?_, ?_⟩
  · rw [rank_places, hm]
    rfl
  · rw [fallback_ranking, List.length_map, List.length_take,
      (sortDescRow_perm _).length_eq, List.length_map]
  · intro r hr
    rw [fallback_ranking] at hr
    rcases List.mem_map.mp hr with ⟨x, hx, hxr⟩
    have hx2 : x ∈ sortDescRow (df.rows.map (fun p => (p, fallbackScore log1p uf p))) :=
      List.mem_of_mem_take hx
    have hx3 : x ∈ df.rows.map (fun p => (p, fallbackScore log1p uf p)) :=
      (sortDescRow_perm _).mem_iff.mp hx2
    rcases List.mem_map.mp hx3 with ⟨p, hp, hpx⟩
    refine ⟨p, hp, ?_⟩
    rw [← hxr, ← hpx, ← fallbackScore_eq]

end MLRankingModel

namespace MLRankingModel

/-- Demo untrained ranking model. -/
def demoUntrained : Model := ⟨false, [], [], [], fun _ => 0⟩

/-- Demo place rows for the ranking witnesses. -/
def rowMuseum : PlaceRow := ⟨"m1", "City Museum", 4, 120, 2, "Museum"⟩

def rowBeach : PlaceRow := ⟨"b1", "City Beach", 3, 40, 1, "Beach"⟩

theorem C2_witness :
    WellFormed ⟨[rowMuseum, rowBeach], []⟩ ∧
    demoUntrained.is_trained = false ∧
    (rank_places (fun n => natQ n) demoUntrained ⟨[rowMuseum, rowBeach], []⟩
        [("budget_encoded", 1), ("interest_food", 1)] 5 =
      (fallback_ranking (fun n => natQ n) ⟨[rowMuseum, rowBeach], []⟩
        [("budget_encoded", 1), ("interest_food", 1)] 5,
       ⟨[rowMuseum, rowBeach], []⟩)) ∧
    (fallback_ranking (fun n => natQ n) ⟨[rowMuseum, rowBeach], []⟩
        [("budget_encoded", 1), ("interest_food", 1)] 5).length =
      min 5 ([rowMuseum, rowBeach] : List PlaceRow).length := by
  have h := C2_untrained_fallback (fun n => natQ n) demoUntrained
    ⟨[rowMuseum, rowBeach], []⟩ [("budget_encoded", 1), ("interest_food", 1)] 5
    (by intro kv hkv; simp at hkv) rfl
  exact ⟨by intro kv hkv; simp at hkv, rfl, h.1, h.2.1⟩

theorem lookup_upsert_self {α : Type} (l : List (String × α)) (k : String) (v : α) :
    List.lookup k (upsert l k v) = some v := by
  induction l with
  | nil => simp [upsert, List.lookup]
  | cons kv rest ih =>
    by_cases h : kv.1 = k
    · simp [upsert, h, List.lookup]
    · have hne : (k == kv.1) = false := beq_eq_false_iff_ne.mpr (fun hc => h hc.symm)
      simp [upsert, h, List.lookup, hne, ih]

theorem lookup_upsert_other {α : Type} (l : List (String × α)) (k aim : String)
    (v : α) (h : aim ≠ k) :
    List.lookup aim (upsert l k v) = List.lookup aim l := by
  induction l with
  | nil =>
    have hne : (aim == k) = false := beq_eq_false_iff_ne.mpr h
    simp [upsert, List.lookup, hne]
  | cons kv rest ih =>
    obtain ⟨k0, v0⟩ := kv
    rw [upsert]
    by_cases hk : k0 = k
    · rw [if_pos hk]
      have hne : (aim == k) = false := beq_eq_false_iff_ne.mpr h
      have hne2 : (aim == k0) = false := beq_eq_false_iff_ne.mpr (by rw [hk]; exact h)
      simp [List.lookup, hne, hne2]
    · rw [if_neg hk]
      by_cases ha : aim = k0
      · simp [List.lookup, ha]
      · have hne2 : (aim == k0) = false := beq_eq_false_iff_ne.mpr ha
        simp [List.lookup, hne2, ih]

theorem broadcast_rows (uf : List (String × ℚ)) (df : Frame) :
    (broadcast uf df).rows = df.rows := by
  induction uf generalizing df with
  | nil => rfl
  | cons kv rest ih =>
    rw [broadcast, List.foldl_cons]
    exact ih _

theorem broadcast_preserves (uf : List (String × ℚ)) (df : Frame) (k : String)
    (h : ∃ w, List.lookup k df.extra = some w) :
    ∃ w, List.lookup k (broadcast uf df).extra = some w := by
  induction uf generalizing df with
  | nil => exact h
  | cons kv rest ih =>
    rw [broadcast, List.foldl_cons]
    refine ih _ ?_
    by_cases hk : k = kv.1
    · exact ⟨_, by rw [setCol, hk, lookup_upsert_self]⟩
    · obtain ⟨w, hw⟩ := h
      exact ⟨w, by rw [setCol, lookup_upsert_other _ _ _ _ hk, hw]⟩

theorem broadcast_lookup_isSome (uf : List (String × ℚ)) (df : Frame) :
    ∀ kv ∈ uf, ∃ w, List.lookup kv.1 (broadcast uf df).extra = some w := by
  induction uf generalizing df with
  | nil => intro kv hkv; simp at hkv
  | cons kv0 rest ih =>
    intro kv hkv
    rw [broadcast, List.foldl_cons]
    rcases List.mem_cons.mp hkv with hkv | hkv
    · subst hkv
      exact broadcast_preserves rest _ kv.1
        ⟨_, by rw [setCol, lookup_upsert_self]⟩
    · exact ih _ kv hkv

end MLRankingModel

namespace MLRankingModel

/-- Demo trained ranking model whose stored feature list names a column
no frame provides, so `predict` raises inside `rank_places`. -/
def demoBadFeature : Model := ⟨true, ["no_such_column"], [0], [1], fun _ => 0⟩

/-- Demo trained ranking model that scores each place by its (scaled)
rating. -/
def demoTrained : Model := ⟨true, ["rating"], [0], [1], fun row => row.foldl qadd 0⟩

/-- C10 counterexample: with a trained model whose prediction raises (a
stored feature is missing), `rank_places` has already broadcast the user
features onto the caller's frame — so the caller's input is mutated — but
no `ml_score` column is ever added, refuting the claim that the trained
path always adds one. -/
theorem C10_counterexample :
    (rank_places (fun n => natQ n) demoBadFeature ⟨[rowMuseum], []⟩
        [("budget_encoded", 2)] 10).2 =
      broadcast [("budget_encoded", 2)] ⟨[rowMuseum], []⟩ ∧
    List.lookup "ml_score"
      (rank_places (fun n => natQ n) demoBadFeature ⟨[rowMuseum], []⟩
        [("budget_encoded", 2)] 10).2.extra = none ∧
    ¬ (rank_places (fun n => natQ n) demoBadFeature ⟨[rowMuseum], []⟩
        [("budget_encoded", 2)] 10).2 = ⟨[rowMuseum], []⟩ := by decide

/-- C10 amended: `rank_places` leaves the caller's frame untouched on the
untrained path (the fallback works on a copy); on the trained path it
mutates the caller's frame in place — when prediction succeeds the frame
gains one column per user feature and an `ml_score` column (rows
unchanged), and when prediction raises the user-feature columns have
already been written even though no `ml_score` is added. -/
theorem C10_frame_effects (log1p : ℕ → ℚ) (m : Model) (df : Frame)
    (uf : List (String × ℚ)) (top_k : ℕ) :
    (m.is_trained = false → (rank_places log1p m df uf top_k).2 = df) ∧
    (m.is_trained = true → ∀ scores, predict m (broadcast uf df) = .ok scores →
      (rank_places log1p m df uf top_k).2 = setCol (broadcast uf df) "ml_score" scores ∧
      List.lookup "ml_score" (rank_places log1p m df uf top_k).2.extra = some scores ∧
      (∀ kv ∈ uf, ∃ w,
        List.lookup kv.1 (rank_places log1p m df uf top_k).2.extra = some w) ∧
      (rank_places log1p m df uf top_k).2.rows = df.rows) ∧
    (m.is_trained = true → ∀ e, predict m (broadcast uf df) = .error e →
      (rank_places log1p m df uf top_k).2 = broadcast uf df) := by
  refine ⟨?_, ?_, ?_⟩
  · intro hm
    rw [rank_places, hm]
    rfl
  · intro hm scores hpred
    have hsnd : (rank_places log1p m df uf top_k).2 =
        setCol (broadcast uf df) "ml_score" scores := by
      rw [rank_places, hm]
      simp only [Bool.true_eq_false, if_false]
      rw [hpred]
    refine ⟨hsnd, ?_, ?_, ?_⟩
    · rw [hsnd, setCol, lookup_upsert_self]
    · intro kv hkv
      rw [hsnd, setCol]
      by_cases hk : kv.1 = "ml_score"
      · exact ⟨scores, by rw [hk, lookup_upsert_self]⟩
      · obtain ⟨w, hw⟩ := broadcast_lookup_isSome uf df kv hkv
        exact ⟨w, by rw [lookup_upsert_other _ _ _ _ hk, hw]⟩
    · rw [hsnd, setCol, broadcast_rows]
  · intro hm e hpred
    rw [rank_places, hm]
    simp only [Bool.true_eq_false, if_false]
    rw [hpred]

theorem C10_witness :
    demoUntrained.is_trained = false ∧
    (rank_places (fun n => natQ n) demoUntrained ⟨[rowMuseum], [("old", [7])]⟩
        [("budget_encoded", 2)] 10).2 = ⟨[rowMuseum], [("old", [7])]⟩ ∧
    demoTrained.is_trained = true ∧
    predict demoTrained (broadcast [("budget_encoded", 2)] ⟨[rowMuseum], []⟩) =
      .ok [4] ∧
    (rank_places (fun n => natQ n) demoTrained ⟨[rowMuseum], []⟩
        [("budget_encoded", 2)] 10).2 =
      setCol (broadcast [("budget_encoded", 2)] ⟨[rowMuseum], []⟩) "ml_score" [4] := by
  refine ⟨rfl, ?_, rfl, ?_, ?_⟩
  · exact (C10_frame_effects (fun n => natQ n) demoUntrained
      ⟨[rowMuseum], [("old", [7])]⟩ [("budget_encoded", 2)] 10).1 rfl
  · decide
  · exact ((C10_frame_effects (fun n => natQ n) demoTrained ⟨[rowMuseum], []⟩
      [("budget_encoded", 2)] 10).2.1 rfl [4] (by decide)).1

end MLRankingModel
